import Mathlib

set_option autoImplicit false

/-!
Verification development for the `Store` key-value cache contract of the
YaoApp/yao-init repository. The repository ships only the API surface of the
store (`.vscode/types/runtime/store.d.ts`, `ai-docs/store.md`,
`.cursor/skills/yao-agent-development/references/runtime-api.md`); the backend
implementation lives in the external Yao engine and is absent from the source
tree. The definitions below are therefore a model built faithfully from the
specification's own words (spec sections 3, 4, 6 and the documented contracts
in the declaration files), and the theorems settle the spec's testable
properties against that model.
-/

namespace YaoStore

/-- Modelled from the spec: stored values are "a tagged variant (null, bool,
number, string, ordered sequence, string-keyed map)" (spec section 9, Design
Notes); the store implementation holding these values is absent from the
source tree. Values are opaque to the store, which only compares them by
structural equality, so the numeric payload is modelled as `Int`. -/
inductive Value where
  | vnull : Value
  | vbool : Bool → Value
  | vnum : Int → Value
  | vstr : String → Value
  | vseq : List Value → Value
  | vmap : List (String × Value) → Value
deriving Repr

mutual

/-- Structural equality on values, the equality the documented `Pull` /
`AddToSet` collection operations compare by. -/
def Value.beq : Value → Value → Bool
  | .vnull, .vnull => true
  | .vbool a, .vbool b => a == b
  | .vnum a, .vnum b => a == b
  | .vstr a, .vstr b => a == b
  | .vseq a, .vseq b => Value.beqList a b
  | .vmap a, .vmap b => Value.beqMap a b
  | _, _ => false

/-- Structural equality on sequences of values. -/
def Value.beqList : List Value → List Value → Bool
  | [], [] => true
  | x :: xs, y :: ys => Value.beq x y && Value.beqList xs ys
  | _, _ => false

/-- Structural equality on string-keyed maps of values. -/
def Value.beqMap : List (String × Value) → List (String × Value) → Bool
  | [], [] => true
  | (k, x) :: xs, (l, y) :: ys => k == l && Value.beq x y && Value.beqMap xs ys
  | _, _ => false

end

/-- Structural equality on values agrees with propositional equality. -/
theorem Value.beq_iff_eq : ∀ (a b : Value), Value.beq a b = true ↔ a = b := by
  refine Value.beq.induct
    (fun a b => Value.beq a b = true ↔ a = b)
    (fun a b => Value.beqMap a b = true ↔ a = b)
    (fun a b => Value.beqList a b = true ↔ a = b)
    ?_ ?_ ?_ ?_ ?_ ?_ ?_ ?_ ?_ ?_ ?_ ?_ ?_
  · simp [Value.beq]
  · intro a b; simp [Value.beq]
  · intro a b; simp [Value.beq]
  · intro a b; simp [Value.beq]
  · intro a b ih; simpa [Value.beq] using ih
  · intro a b ih; simpa [Value.beq] using ih
  · intro t x h1 h2 h3 h4 h5 h6
    cases t <;> cases x <;>
      first
        | exact (h1 rfl rfl).elim
        | exact (h2 _ _ rfl rfl).elim
        | exact (h3 _ _ rfl rfl).elim
        | exact (h4 _ _ rfl rfl).elim
        | exact (h5 _ _ rfl rfl).elim
        | exact (h6 _ _ rfl rfl).elim
        | simp [Value.beq]
  · simp [Value.beqList]
  · intro x xs y ys ih1 ih2; simp [Value.beqList, ih1, ih2]
  · intro t x h1 h2
    cases t <;> cases x <;>
      first
        | exact (h1 rfl rfl).elim
        | exact (h2 _ _ _ _ rfl rfl).elim
        | simp [Value.beqList]
  · simp [Value.beqMap]
  · intro k x xs l y ys ih1 ih2; simp [Value.beqMap, ih1, ih2]
  · intro t x h1 h2
    cases t <;> cases x <;>
      first
        | exact (h1 rfl rfl).elim
        | exact (h2 _ _ _ _ _ _ rfl rfl).elim
        | simp [Value.beqMap]

instance : DecidableEq Value := fun a b =>
  decidable_of_iff (Value.beq a b = true) (Value.beq_iff_eq a b)

/-- Modelled from the spec: an entry is `{ key, value, expires_at: optional
timestamp }` (spec section 3, Data Model); the TTL manager "translates TTL to
an absolute deadline internally (now + ttl)" (spec section 4.2). Time is
modelled in whole seconds as `Nat`. -/
structure Entry where
  value : Value
  expiresAt : Option Nat
deriving DecidableEq, Repr

/-- Modelled from the spec: the backend's key-to-entry table (spec section
4.1, Backend Adapter), modelled as an association list with unique keys. -/
abbrev StoreState := List (String × Entry)

/-- Modelled from the spec: `RawGet(key) -> (value, found)` of the Backend
Adapter (spec section 4.1). -/
def rawGet : StoreState → String → Option Entry
  | [], _ => none
  | (k', e) :: rest, k => if k' = k then some e else rawGet rest k

/-- Modelled from the spec: `RawSet(key, value)` of the Backend Adapter (spec
section 4.1); overwrites the entry in place or appends a new one. -/
def rawSet : StoreState → String → Entry → StoreState
  | [], k, e => [(k, e)]
  | (k', e') :: rest, k, e =>
    if k' = k then (k, e) :: rest else (k', e') :: rawSet rest k e

/-- Modelled from the spec: `RawDelete(key)` of the Backend Adapter (spec
section 4.1). -/
def rawDel : StoreState → String → StoreState
  | [], _ => []
  | (k', e') :: rest, k =>
    if k' = k then rawDel rest k else (k', e') :: rawDel rest k

/-- Modelled from the spec: "an entry with `expires_at` in the past is
logically absent" and a `Get` at any time `≥ t` seconds after a `Set` with
`ttl = t` is a miss (spec sections 3 and 8 P1), so an entry is expired at
`now` exactly when `expires_at ≤ now`; `expires_at = null` means "never
expires" (spec section 4.2). -/
def isExpired (now : Nat) (e : Entry) : Bool :=
  match e.expiresAt with
  | none => false
  | some t => decide (t ≤ now)

/-- Modelled from the spec: `Get(key) -> value | miss-sentinel`, where "on
every read path, compare current time to `expires_at` before returning a
value — if expired, treat as miss" (spec sections 4.2 and 4.3). The miss
sentinel is `none`, distinguishable from every storable `Value`. -/
def Get (now : Nat) (s : StoreState) (k : String) : Option Value :=
  match rawGet s k with
  | none => none
  | some e => if isExpired now e then none else some e.value

/-- Modelled from the spec: `Set(key, value, ttl?)` "stores value, optional
TTL in seconds; overwrites any existing entry for `key`, resetting its TTL",
with the TTL translated to the absolute deadline `now + ttl` (spec sections
4.2 and 4.3). -/
def Set (now : Nat) (s : StoreState) (k : String) (v : Value)
    (ttl : Option Nat) : StoreState :=
  rawSet s k ⟨v, ttl.map (fun t => now + t)⟩

/-- Modelled from the spec: `Has(key) -> bool`, an "existence check honoring
TTL" (spec section 4.3). -/
def Has (now : Nat) (s : StoreState) (k : String) : Bool :=
  (Get now s k).isSome

/-- Modelled from the spec: `Del(key)` "removes entry; no-op (not an error)
if absent" (spec section 4.3). -/
def Del (s : StoreState) (k : String) : StoreState :=
  rawDel s k

/-- Result of a `GetSet` call: the returned value, the resulting store state,
and whether the loader function was invoked (instrumentation used to state
the idempotent-on-hit property P3). -/
structure GetSetResult where
  value : Value
  state : StoreState
  invokedLoader : Bool
deriving DecidableEq, Repr

/-- Modelled from the spec: `GetSet(key, loaderFn, ttl?)`, the cache-aside
pattern: "If `key` present and unexpired, return it without invoking
`loaderFn`. Otherwise invoke `loaderFn(key)` to compute the value, store it
with the given TTL, and return it." (spec section 4.3). -/
def GetSet (now : Nat) (s : StoreState) (k : String) (loader : String → Value)
    (ttl : Option Nat) : GetSetResult :=
  match Get now s k with
  | some v => ⟨v, s, false⟩
  | none => ⟨loader k, Set now s k (loader k) ttl, true⟩

/-- Modelled from the spec: `GetMulti(keys) -> map of found entries only`:
"omits keys not found rather than returning null placeholders" (spec section
4.3). -/
def GetMulti (now : Nat) (s : StoreState) (keys : List String) :
    List (String × Value) :=
  keys.filterMap (fun k => (Get now s k).map (fun v => (k, v)))

/-- Modelled from the spec: `GetSetMulti(keys, getValue, ttl)` from the
declaration file `store.d.ts` (absent from the spec's section 4.3 list):
"Gets multiple values from the store, or sets them using the provided
function if not found", returning an "Object containing key-value pairs" with
an entry for every requested key. Modelled as one `GetSet` per key in order,
threading the store state. -/
def GetSetMulti (now : Nat) (s : StoreState) (keys : List String)
    (loader : String → Value) (ttl : Option Nat) :
    List (String × Value) × StoreState :=
  match keys with
  | [] => ([], s)
  | k :: rest =>
    let r := GetSet now s k loader ttl
    let t := GetSetMulti now r.state rest loader ttl
    ((k, r.value) :: t.1, t.2)

/-- Modelled from the spec: the error taxonomy of section 7 restricted to the
errors the collection extension can raise in-process: "`TypeMismatch` —
collection operation invoked on a non-sequence value" (backend transport
errors such as `BackendUnavailable` concern the external engine and are not
reachable in this in-memory model). -/
inductive StoreError where
  | typeMismatch : StoreError
deriving DecidableEq, Repr

/-- Whether a value is an ordered sequence (the only values on which
collection operations have defined behavior, spec section 3, `ListEntry`). -/
def isSeq : Value → Bool
  | .vseq _ => true
  | _ => false

/-- Modelled from the spec: `Push(key, ...values)` "appends to the end of the
sequence at `key`, creating an empty sequence first if absent" (spec section
4.4); on a non-sequence value it fails with `TypeMismatch` and leaves the
state unchanged. A logically absent (expired) entry counts as absent. -/
def Push (now : Nat) (s : StoreState) (k : String) (vs : List Value) :
    StoreState × Option StoreError :=
  match rawGet s k with
  | none => (Set now s k (Value.vseq ([] ++ vs)) none, none)
  | some e =>
    if isExpired now e then (Set now s k (Value.vseq ([] ++ vs)) none, none)
    else
      match e.value with
      | Value.vseq xs => (rawSet s k ⟨Value.vseq (xs ++ vs), e.expiresAt⟩, none)
      | _ => (s, some StoreError.typeMismatch)

/-- Modelled from the spec: `Pop(key, position)` "removes and returns one
element; `position` selects from either end" (spec section 4.4). The
implementation must pick one consistent mapping; this model adopts the
convention documented in `store.d.ts` ("1 = end, -1 = beginning"): position
`-1` pops the first element, every other position pops the last. Popping an
absent or empty sequence is a miss; a non-sequence value is `TypeMismatch`
with the state unchanged. -/
def Pop (now : Nat) (s : StoreState) (k : String) (position : Int) :
    Option Value × StoreState × Option StoreError :=
  match rawGet s k with
  | none => (none, s, none)
  | some e =>
    if isExpired now e then (none, s, none)
    else
      match e.value with
      | Value.vseq xs =>
        if xs.isEmpty then (none, s, none)
        else if position = -1 then
          (xs.head?, rawSet s k ⟨Value.vseq xs.tail, e.expiresAt⟩, none)
        else
          (xs.getLast?, rawSet s k ⟨Value.vseq xs.dropLast, e.expiresAt⟩, none)
      | _ => (none, s, some StoreError.typeMismatch)

/-- Modelled from the spec: `Pull(key, value)` "removes all occurrences
structurally equal to `value` from the sequence" (spec section 4.4). -/
def Pull (now : Nat) (s : StoreState) (k : String) (v : Value) :
    StoreState × Option StoreError :=
  match rawGet s k with
  | none => (s, none)
  | some e =>
    if isExpired now e then (s, none)
    else
      match e.value with
      | Value.vseq xs =>
        (rawSet s k ⟨Value.vseq (xs.filter (fun x => !Value.beq x v)), e.expiresAt⟩, none)
      | _ => (s, some StoreError.typeMismatch)

/-- Modelled from the spec: `PullAll(key, ...values)` "removes all
occurrences of any of the given values" (spec section 4.4). -/
def PullAll (now : Nat) (s : StoreState) (k : String) (vs : List Value) :
    StoreState × Option StoreError :=
  match rawGet s k with
  | none => (s, none)
  | some e =>
    if isExpired now e then (s, none)
    else
      match e.value with
      | Value.vseq xs =>
        (rawSet s k ⟨Value.vseq (xs.filter (fun x => !vs.contains x)), e.expiresAt⟩, none)
      | _ => (s, some StoreError.typeMismatch)

/-- Modelled from the spec: the appending core of `AddToSet`: appends each
given value, in order, only when it is not already present in the
accumulated sequence (which also ignores duplicates among the given values
themselves, spec section 4.4). -/
def addUnique (xs : List Value) : List Value → List Value
  | [] => xs
  | v :: vs => if v ∈ xs then addUnique xs vs else addUnique (xs ++ [v]) vs

/-- Modelled from the spec: `AddToSet(key, ...values)` "appends only values
not already present (equality-based), preserving existing order and ignoring
duplicates among the given values as well" (spec section 4.4), creating the
sequence if absent; a non-sequence value is `TypeMismatch`. -/
def AddToSet (now : Nat) (s : StoreState) (k : String) (vs : List Value) :
    StoreState × Option StoreError :=
  match rawGet s k with
  | none => (Set now s k (Value.vseq (addUnique [] vs)) none, none)
  | some e =>
    if isExpired now e then (Set now s k (Value.vseq (addUnique [] vs)) none, none)
    else
      match e.value with
      | Value.vseq xs => (rawSet s k ⟨Value.vseq (addUnique xs vs), e.expiresAt⟩, none)
      | _ => (s, some StoreError.typeMismatch)

/-- Modelled from the spec: `ArraySet(key, index, value)` sets the element at
a zero-based index (`store.d.ts`); on a non-sequence value it fails with
`TypeMismatch` and leaves the state unchanged, and on an absent key it is a
no-op miss. -/
def ArraySet (now : Nat) (s : StoreState) (k : String) (i : Nat) (v : Value) :
    StoreState × Option StoreError :=
  match rawGet s k with
  | none => (s, none)
  | some e =>
    if isExpired now e then (s, none)
    else
      match e.value with
      | Value.vseq xs => (rawSet s k ⟨Value.vseq (xs.set i v), e.expiresAt⟩, none)
      | _ => (s, some StoreError.typeMismatch)

/-- Modelled from the spec: `ArrayAll(key) -> full sequence`; a read on a
nonexistent key "returns a miss/null rather than erroring", while "any array
operation on a key whose existing value is not a sequence fails with a
type-mismatch error" (spec section 4.4). -/
def ArrayAll (now : Nat) (s : StoreState) (k : String) :
    Except StoreError (Option (List Value)) :=
  match Get now s k with
  | none => .ok none
  | some (Value.vseq xs) => .ok (some xs)
  | some _ => .error StoreError.typeMismatch

/-- Modelled from the spec: `ArrayLen(key) -> int` under the same miss and
type-mismatch rules as `ArrayAll` (spec section 4.4). -/
def ArrayLen (now : Nat) (s : StoreState) (k : String) :
    Except StoreError (Option Nat) :=
  match Get now s k with
  | none => .ok none
  | some (Value.vseq xs) => .ok (some xs.length)
  | some _ => .error StoreError.typeMismatch

/-- Modelled from the spec: the process-wide `StoreRegistry`, a "singleton
mapping `name: string → StoreInstance`" (spec section 3); each named store's
backend state is its `StoreState`. -/
abbrev Registry := List (String × StoreState)

/-- Lookup of a named store instance in the registry. -/
def regFind : Registry → String → Option StoreState
  | [], _ => none
  | (n', st) :: rest, n => if n' = n then some st else regFind rest n

/-- Replacement (or first insertion) of a named store instance's state. -/
def regSet : Registry → String → StoreState → Registry
  | [], n, st => [(n, st)]
  | (n', st') :: rest, n, st =>
    if n' = n then (n, st) :: rest else (n', st') :: regSet rest n st

/-- How many instances the registry holds for a given name. -/
def regCount (r : Registry) (n : String) : Nat :=
  r.countP (fun p => decide (p.1 = n))

/-- Modelled from the spec: `OpenStore(name)` "returns a handle to the named
process-wide store, auto-creating it ... on first use" (spec section 6), and
`GetOrCreateStore` is "idempotent by `name`": repeated construction requests
with the same name return the same instance (spec sections 3 and 4.5). A
handle is the name it was opened with; all operations through a handle act
on the shared registry state. -/
def OpenStore (r : Registry) (n : String) : Registry × String :=
  match regFind r n with
  | some _ => (r, n)
  | none => (regSet r n [], n)

/-- A `Set` performed through a store handle, acting on the process-wide
registry state for the handle's name. -/
def handleSet (now : Nat) (r : Registry) (h : String) (k : String) (v : Value)
    (ttl : Option Nat) : Registry :=
  match regFind r h with
  | none => r
  | some st => regSet r h (Set now st k v ttl)

/-- A `Get` performed through a store handle, acting on the process-wide
registry state for the handle's name. -/
def handleGet (now : Nat) (r : Registry) (h : String) (k : String) :
    Option Value :=
  match regFind r h with
  | none => none
  | some st => Get now st k

theorem rawGet_rawSet_self (s : StoreState) (k : String) (e : Entry) :
    rawGet (rawSet s k e) k = some e := by
  induction s with
  | nil => simp [rawGet, rawSet]
  | cons p rest ih =>
      obtain ⟨k', e'⟩ := p
      by_cases h : k' = k <;> simp [rawGet, rawSet, h, ih]

theorem rawGet_rawSet_ne (s : StoreState) (k k' : String) (e : Entry)
    (h : k' ≠ k) : rawGet (rawSet s k e) k' = rawGet s k' := by
  induction s with
  | nil => simp [rawGet, rawSet, Ne.symm h]
  | cons p rest ih =>
      obtain ⟨k'', e'⟩ := p
      by_cases h' : k'' = k
      · subst h'
        simp [rawGet, rawSet, Ne.symm h]
      · by_cases h'' : k'' = k' <;> simp [rawGet, rawSet, h, h', h'', ih]

theorem isExpired_mk (now : Nat) (v : Value) (e : Entry) :
    isExpired now ⟨v, e.expiresAt⟩ = isExpired now e := rfl

theorem Get_Set_self_forever (now m : Nat) (s : StoreState) (k : String)
    (v : Value) : Get m (Set now s k v none) k = some v := by
  simp [Get, Set, rawGet_rawSet_self, isExpired, Option.map]

theorem Get_Set_self_ttl (now m t : Nat) (s : StoreState) (k : String)
    (v : Value) :
    Get m (Set now s k v (some t)) k =
      if now + t ≤ m then none else some v := by
  simp [Get, Set, rawGet_rawSet_self, isExpired, Option.map]

theorem Get_Set_ne (now m : Nat) (s : StoreState) (k k' : String) (v : Value)
    (ttl : Option Nat) (h : k' ≠ k) :
    Get m (Set now s k v ttl) k' = Get m s k' := by
  simp [Get, Set, rawGet_rawSet_ne _ _ _ _ h]

theorem Get_Set_inv (now m : Nat) (s : StoreState) (k : String) (v w : Value)
    (ttl : Option Nat) (h : Get m (Set now s k v ttl) k = some w) : w = v := by
  cases ttl with
  | none =>
      rw [Get_Set_self_forever] at h
      exact (Option.some.injEq _ _ ▸ h).symm
  | some t =>
      rw [Get_Set_self_ttl] at h
      by_cases hle : now + t ≤ m
      · simp [hle] at h
      · simp [hle] at h
        exact h.symm

theorem regFind_regSet_self (r : Registry) (n : String) (st : StoreState) :
    regFind (regSet r n st) n = some st := by
  induction r with
  | nil => simp [regFind, regSet]
  | cons p rest ih =>
      obtain ⟨n', st'⟩ := p
      by_cases h : n' = n <;> simp [regFind, regSet, h, ih]

theorem regCount_nil (n : String) : regCount [] n = 0 := by
  simp [regCount]

theorem regCount_cons (p : String × StoreState) (rest : Registry) (n : String) :
    regCount (p :: rest) n = regCount rest n + (if p.1 = n then 1 else 0) := by
  simp [regCount, List.countP_cons]

theorem regCount_pos_of_regFind (r : Registry) (n : String) (st : StoreState)
    (h : regFind r n = some st) : 0 < regCount r n := by
  induction r with
  | nil => simp [regFind] at h
  | cons p rest ih =>
      obtain ⟨n', st'⟩ := p
      by_cases h' : n' = n
      · simp [regCount_cons, h']
      · rw [regFind, if_neg h'] at h
        have h2 := ih h
        simp only [regCount_cons, h', if_false]
        omega

theorem regCount_zero_of_regFind_none (r : Registry) (n : String)
    (h : regFind r n = none) : regCount r n = 0 := by
  induction r with
  | nil => exact regCount_nil n
  | cons p rest ih =>
      obtain ⟨n', st'⟩ := p
      by_cases h' : n' = n
      · rw [regFind, if_pos h'] at h
        exact absurd h (by simp)
      · rw [regFind, if_neg h'] at h
        simp [regCount_cons, h', ih h]

theorem regCount_regSet_of_none (r : Registry) (n : String) (st : StoreState)
    (h : regFind r n = none) : regCount (regSet r n st) n = regCount r n + 1 := by
  induction r with
  | nil => simp [regSet, regCount_cons, regCount_nil]
  | cons p rest ih =>
      obtain ⟨n', st'⟩ := p
      by_cases h' : n' = n
      · rw [regFind, if_pos h'] at h
        exact absurd h (by simp)
      · rw [regFind, if_neg h'] at h
        simp [regSet, regCount_cons, h', ih h]

theorem addUnique_append (xs vs : List Value) :
    ∃ t, addUnique xs vs = xs ++ t := by
  induction vs generalizing xs with
  | nil => exact ⟨[], by simp [addUnique]⟩
  | cons w ws ih =>
      by_cases h : w ∈ xs
      · simpa [addUnique, h] using ih xs
      · obtain ⟨t, ht⟩ := ih (xs ++ [w])
        exact ⟨w :: t, by simp [addUnique, h, ht]⟩

theorem mem_addUnique (xs vs : List Value) (v : Value) :
    v ∈ addUnique xs vs ↔ v ∈ xs ∨ v ∈ vs := by
  induction vs generalizing xs with
  | nil => simp [addUnique]
  | cons w ws ih =>
      by_cases h : w ∈ xs
      · rw [addUnique, if_pos h, ih]
        simp only [List.mem_cons]
        constructor
        · rintro (h1 | h2)
          · exact Or.inl h1
          · exact Or.inr (Or.inr h2)
        · rintro (h1 | h2 | h3)
          · exact Or.inl h1
          · exact Or.inl (h2 ▸ h)
          · exact Or.inr h3
      · rw [addUnique, if_neg h, ih]
        simp only [List.mem_append, List.mem_singleton, List.mem_cons]
        tauto

theorem addUnique_nodup (xs vs : List Value) (h : xs.Nodup) :
    (addUnique xs vs).Nodup := by
  induction vs generalizing xs with
  | nil => simpa [addUnique] using h
  | cons w ws ih =>
      by_cases hw : w ∈ xs
      · rw [addUnique, if_pos hw]
        exact ih xs h
      · rw [addUnique, if_neg hw]
        refine ih _ ?_
        simp [List.nodup_append, h, hw]

theorem getSetMulti_fst (now : Nat) (s : StoreState) (keys : List String)
    (f : String → Value) (ttl : Option Nat) :
    ((GetSetMulti now s keys f ttl).1).map Prod.fst = keys := by
  induction keys generalizing s with
  | nil => simp [GetSetMulti]
  | cons k rest ih => simp [GetSetMulti, ih]

theorem getSetMulti_state_cons (now : Nat) (s : StoreState) (k1 : String)
    (rest : List String) (f : String → Value) (ttl : Option Nat) :
    (GetSetMulti now s (k1 :: rest) f ttl).2 =
      (GetSetMulti now (GetSet now s k1 f ttl).state rest f ttl).2 := rfl

theorem getSetMulti_hit (now : Nat) (s : StoreState) (keys : List String)
    (f : String → Value) (ttl : Option Nat) :
    ∀ p ∈ (GetSetMulti now s keys f ttl).1, ∀ v,
      Get now s p.1 = some v → p.2 = v := by
  induction keys generalizing s with
  | nil => simp [GetSetMulti]
  | cons k rest ih =>
      intro p hp v hv
      rw [GetSetMulti] at hp
      cases hk : Get now s k with
      | some w =>
          rw [GetSet] at hp
          rw [hk] at hp
          simp only [List.mem_cons] at hp
          rcases hp with hp | hp
          · subst hp
            dsimp only at hv ⊢
            rw [hk] at hv
            exact Option.some_inj.mp hv
          · exact ih s p hp v hv
      | none =>
          rw [GetSet] at hp
          rw [hk] at hp
          simp only [List.mem_cons] at hp
          rcases hp with hp | hp
          · subst hp
            dsimp only at hv
            rw [hk] at hv
            simp at hv
          · by_cases hpk : p.1 = k
            · rw [hpk, hk] at hv
              simp at hv
            · have hv' : Get now (Set now s k (f k) ttl) p.1 = some v := by
                rw [Get_Set_ne now now s k p.1 (f k) ttl hpk]
                exact hv
              exact ih (Set now s k (f k) ttl) p hp v hv'

theorem getSetMulti_miss (now : Nat) (s : StoreState) (keys : List String)
    (f : String → Value) (ttl : Option Nat) :
    ∀ p ∈ (GetSetMulti now s keys f ttl).1,
      Get now s p.1 = none → p.2 = f p.1 := by
  induction keys generalizing s with
  | nil => simp [GetSetMulti]
  | cons k rest ih =>
      intro p hp hv
      rw [GetSetMulti] at hp
      cases hk : Get now s k with
      | some w =>
          rw [GetSet] at hp
          rw [hk] at hp
          simp only [List.mem_cons] at hp
          rcases hp with hp | hp
          · subst hp
            dsimp only at hv
            rw [hk] at hv
            simp at hv
          · exact ih s p hp hv
      | none =>
          rw [GetSet] at hp
          rw [hk] at hp
          simp only [List.mem_cons] at hp
          rcases hp with hp | hp
          · subst hp
            rfl
          · by_cases hpk : p.1 = k
            · cases hs' : Get now (Set now s k (f k) ttl) p.1 with
              | some w =>
                  have hw := getSetMulti_hit now (Set now s k (f k) ttl)
                    rest f ttl p hp w hs'
                  rw [hpk] at hs'
                  have hwf := Get_Set_inv now now s k (f k) w ttl hs'
                  rw [hw, hwf, hpk]
              | none => exact ih (Set now s k (f k) ttl) p hp hs'
            · have hv' : Get now (Set now s k (f k) ttl) p.1 = none := by
                rw [Get_Set_ne now now s k p.1 (f k) ttl hpk]
                exact hv
              exact ih (Set now s k (f k) ttl) p hp hv'

theorem getSetMulti_preserves_entry (now : Nat) (s : StoreState)
    (keys : List String) (f : String → Value) (ttl : Option Nat) (k : String)
    (hcanon : rawGet s k = some ⟨f k, ttl.map (fun t => now + t)⟩) :
    rawGet (GetSetMulti now s keys f ttl).2 k =
      some ⟨f k, ttl.map (fun t => now + t)⟩ := by
  induction keys generalizing s with
  | nil => simpa [GetSetMulti] using hcanon
  | cons k1 rest ih =>
      rw [getSetMulti_state_cons]
      cases hk1 : Get now s k1 with
      | some w =>
          have hst : (GetSet now s k1 f ttl).state = s := by simp [GetSet, hk1]
          rw [hst]
          exact ih s hcanon
      | none =>
          have hst : (GetSet now s k1 f ttl).state = Set now s k1 (f k1) ttl := by
            simp [GetSet, hk1]
          rw [hst]
          by_cases hkk : k1 = k
          · subst hkk
            exact ih _ (rawGet_rawSet_self s k1 _)
          · refine ih _ ?_
            show rawGet (rawSet s k1 ⟨f k1, ttl.map (fun t => now + t)⟩) k =
              some ⟨f k, ttl.map (fun t => now + t)⟩
            rw [rawGet_rawSet_ne s k1 k _ (Ne.symm hkk)]
            exact hcanon

theorem getSetMulti_stores (now : Nat) (s : StoreState) (keys : List String)
    (f : String → Value) (ttl : Option Nat) :
    ∀ k ∈ keys, Get now s k = none →
      rawGet (GetSetMulti now s keys f ttl).2 k =
        some ⟨f k, ttl.map (fun t => now + t)⟩ := by
  induction keys generalizing s with
  | nil => simp
  | cons k1 rest ih =>
      intro k hmem hnone
      rw [getSetMulti_state_cons]
      rcases List.mem_cons.mp hmem with heq | hmem'
      · subst heq
        have hst : (GetSet now s k f ttl).state = Set now s k (f k) ttl := by
          simp [GetSet, hnone]
        rw [hst]
        exact getSetMulti_preserves_entry now _ rest f ttl k
          (rawGet_rawSet_self s k _)
      · cases hk1 : Get now s k1 with
        | some w =>
            have hst : (GetSet now s k1 f ttl).state = s := by
              simp [GetSet, hk1]
            rw [hst]
            exact ih s k hmem' hnone
        | none =>
            have hst : (GetSet now s k1 f ttl).state =
                Set now s k1 (f k1) ttl := by
              simp [GetSet, hk1]
            rw [hst]
            by_cases hkk : k = k1
            · subst hkk
              exact getSetMulti_preserves_entry now _ rest f ttl k
                (rawGet_rawSet_self s k _)
            · have hnone' : Get now (Set now s k1 (f k1) ttl) k = none := by
                rw [Get_Set_ne now now s k1 k (f k1) ttl hkk]
                exact hnone
              exact ih _ k hmem' hnone'

theorem getMulti_fst (now : Nat) (s : StoreState) (keys : List String) :
    (GetMulti now s keys).map Prod.fst =
      keys.filter (fun k => (Get now s k).isSome) := by
  induction keys with
  | nil => simp [GetMulti]
  | cons k rest ih =>
      have ih' := ih
      unfold GetMulti at ih' ⊢
      cases hk : Get now s k with
      | none =>
          rw [List.filterMap_cons, hk]
          simp [List.filter_cons, hk, ih']
      | some v =>
          rw [List.filterMap_cons, hk]
          simp [List.filter_cons, hk, ih']

theorem getMulti_mem (now : Nat) (s : StoreState) (keys : List String) :
    ∀ p ∈ GetMulti now s keys, Get now s p.1 = some p.2 := by
  induction keys with
  | nil => simp [GetMulti]
  | cons k rest ih =>
      intro p hp
      rw [GetMulti, List.filterMap_cons] at hp
      cases hk : Get now s k with
      | none =>
          rw [hk] at hp
          exact ih p hp
      | some v =>
          rw [hk] at hp
          simp only [Option.map_some', List.mem_cons] at hp
          rcases hp with hp | hp
          · subst hp
            exact hk
          · exact ih p hp

/-- C1: repeated construction of a store handle with the same name binds to
the same underlying store instance for the whole process: the two handles
are equal, the second open creates no new instance, exactly one registry
instance exists for the name, and a `Set` through the first handle is
observed by a `Get` through the second handle. -/
theorem registry_singleton (r : Registry) (n k : String) (v : Value)
    (now : Nat) (hcount : regCount r n ≤ 1) :
    (OpenStore r n).2 = (OpenStore (OpenStore r n).1 n).2 ∧
    (OpenStore (OpenStore r n).1 n).1 = (OpenStore r n).1 ∧
    regCount (OpenStore r n).1 n = 1 ∧
    handleGet now
      (handleSet now (OpenStore r n).1 (OpenStore r n).2 k v none)
      (OpenStore (OpenStore r n).1 n).2 k = some v := by
  cases hfind : regFind r n with
  | some st =>
      have hopen : OpenStore r n = (r, n) := by simp [OpenStore, hfind]
      rw [hopen]
      refine ⟨by simp [OpenStore, hfind], by simp [OpenStore, hfind], ?_, ?_⟩
      · have h2 := regCount_pos_of_regFind r n st hfind
        show regCount r n = 1
        omega
      · simp [OpenStore, hfind, handleSet, handleGet, regFind_regSet_self,
          Get_Set_self_forever]
  | none =>
      have hopen : OpenStore r n = (regSet r n [], n) := by
        simp [OpenStore, hfind]
      have hfind1 : regFind (regSet r n []) n = some [] :=
        regFind_regSet_self r n []
      rw [hopen]
      refine ⟨by simp [OpenStore, hfind1], by simp [OpenStore, hfind1], ?_, ?_⟩
      · rw [regCount_regSet_of_none r n [] hfind,
          regCount_zero_of_regFind_none r n hfind]
      · simp [OpenStore, hfind1, handleSet, handleGet, regFind_regSet_self,
          Get_Set_self_forever]

theorem registry_singleton_witness :
    regCount ([] : Registry) "x" ≤ 1 ∧
    handleGet 0
      (handleSet 0 (OpenStore [] "x").1 (OpenStore [] "x").2 "k"
        (Value.vnum 1) none)
      (OpenStore (OpenStore [] "x").1 "x").2 "k" = some (Value.vnum 1) :=
  ⟨by decide, (registry_singleton [] "x" "k" (Value.vnum 1) 0 (by decide)).2.2.2⟩

/-- C2: after `Set(k, v, ttl = t)` with `t > 0` performed at time `t0`, a
`Get(k)` at any time `t0 + d` with `d < t` returns `v`, while at any time
`t0 + d` with `d ≥ t` it returns a miss and `Has` reports absence: the
expired entry is logically absent on the read paths. -/
theorem ttl_expiry_correct (s : StoreState) (k : String) (v : Value)
    (t t0 d : Nat) (ht : 0 < t) :
    (d < t → Get (t0 + d) (Set t0 s k v (some t)) k = some v) ∧
    (t ≤ d → Get (t0 + d) (Set t0 s k v (some t)) k = none) ∧
    (t ≤ d → Has (t0 + d) (Set t0 s k v (some t)) k = false) := by
  refine ⟨fun hd => ?_, fun hd => ?_, fun hd => ?_⟩
  · rw [Get_Set_self_ttl, if_neg (by omega)]
  · rw [Get_Set_self_ttl, if_pos (by omega)]
  · simp only [Has]
    rw [Get_Set_self_ttl, if_pos (by omega)]
    rfl

theorem ttl_expiry_correct_witness :
    Get (0 + 0) (Set 0 [] "k" (Value.vnum 7) (some 1)) "k" =
      some (Value.vnum 7) ∧
    Get (0 + 1) (Set 0 [] "k" (Value.vnum 7) (some 1)) "k" = none :=
  ⟨(ttl_expiry_correct [] "k" (Value.vnum 7) 1 0 0 (by decide)).1 (by decide),
   (ttl_expiry_correct [] "k" (Value.vnum 7) 1 0 1 (by decide)).2.1 (by decide)⟩

/-- C3: cache-aside contract of `GetSet`: on a present and unexpired key the
stored value is returned, the state is unchanged, the loader is never
invoked and the result does not depend on the loader; on a miss the loader
is invoked, its result is stored under the key with the given TTL and
returned, and a subsequent `Get` before expiry returns that result. -/
theorem getset_cache_aside (now : Nat) (s : StoreState) (k : String)
    (f g : String → Value) (ttl : Option Nat) (v : Value) :
    (Get now s k = some v →
      GetSet now s k f ttl = ⟨v, s, false⟩ ∧
      GetSet now s k f ttl = GetSet now s k g ttl) ∧
    (Get now s k = none →
      (GetSet now s k f ttl).invokedLoader = true ∧
      (GetSet now s k f ttl).value = f k ∧
      (GetSet now s k f ttl).state = Set now s k (f k) ttl ∧
      (∀ t d : Nat, ttl = some t → d < t →
        Get (now + d) (GetSet now s k f ttl).state k = some (f k)) ∧
      (ttl = none →
        ∀ m : Nat, Get m (GetSet now s k f ttl).state k = some (f k))) := by
  constructor
  · intro h
    have e1 : GetSet now s k f ttl = ⟨v, s, false⟩ := by simp [GetSet, h]
    have e2 : GetSet now s k g ttl = ⟨v, s, false⟩ := by simp [GetSet, h]
    exact ⟨e1, e1.trans e2.symm⟩
  · intro h
    have e1 : GetSet now s k f ttl = ⟨f k, Set now s k (f k) ttl, true⟩ := by
      simp [GetSet, h]
    rw [e1]
    refine ⟨rfl, rfl, rfl, ?_, ?_⟩
    · intro t d httl hd
      subst httl
      rw [Get_Set_self_ttl, if_neg (by omega)]
    · intro httl m
      subst httl
      exact Get_Set_self_forever now m s k (f k)

theorem getset_cache_aside_witness :
    (GetSet 0 [("k", ⟨Value.vnum 9, none⟩)] "k" (fun x => Value.vnum 1)
      (some 5)).invokedLoader = false ∧
    (GetSet 0 [] "k" (fun x => Value.vnum 1) (some 5)).invokedLoader = true := by
  have hhit := ((getset_cache_aside 0 [("k", ⟨Value.vnum 9, none⟩)] "k"
    (fun x => Value.vnum 1) (fun x => Value.vnum 2) (some 5)
    (Value.vnum 9)).1 (by decide)).1
  have hmiss := (getset_cache_aside 0 [] "k" (fun x => Value.vnum 1)
    (fun x => Value.vnum 2) (some 5) Value.vnull).2 (by decide)
  exact ⟨by rw [hhit], hmiss.1⟩

/-- C4: the miss result of `Get` is distinguishable from every storable
value: after `Set(k, null)` a `Get(k)` returns the stored null (and `Has`
reports presence), while a `Get` on an absent key returns the miss sentinel
(and `Has` reports absence), and the two results differ. -/
theorem stored_null_distinct_from_miss (now : Nat) (s : StoreState)
    (k k' : String) (habsent : rawGet s k' = none) :
    Get now (Set now s k Value.vnull none) k = some Value.vnull ∧
    Has now (Set now s k Value.vnull none) k = true ∧
    Get now s k' = none ∧
    Has now s k' = false ∧
    Get now (Set now s k Value.vnull none) k ≠ Get now s k' := by
  have h1 := Get_Set_self_forever now now s k Value.vnull
  have h2 : Get now s k' = none := by simp [Get, habsent]
  exact ⟨h1, by simp [Has, h1], h2, by simp [Has, h2], by simp [h1, h2]⟩

theorem stored_null_distinct_from_miss_witness :
    Get 0 (Set 0 [] "k" Value.vnull none) "k" = some Value.vnull ∧
    Get 0 [] "m" = none := by
  have h := stored_null_distinct_from_miss 0 [] "k" "m" (by decide)
  exact ⟨h.1, h.2.2.1⟩

/-- C6: every collection operation applied to a key holding an unexpired
non-sequence (scalar) value fails with a `TypeMismatch` error and returns
the store state unchanged, and the scalar remains readable at the key. -/
theorem collection_op_on_scalar_type_mismatch (now : Nat) (s : StoreState)
    (k : String) (e : Entry) (vs : List Value) (w : Value) (i : Nat)
    (pos : Int) (hget : rawGet s k = some e)
    (hlive : isExpired now e = false) (hscalar : isSeq e.value = false) :
    Push now s k vs = (s, some StoreError.typeMismatch) ∧
    Pop now s k pos = (none, s, some StoreError.typeMismatch) ∧
    Pull now s k w = (s, some StoreError.typeMismatch) ∧
    PullAll now s k vs = (s, some StoreError.typeMismatch) ∧
    AddToSet now s k vs = (s, some StoreError.typeMismatch) ∧
    ArraySet now s k i w = (s, some StoreError.typeMismatch) ∧
    ArrayAll now s k = .error StoreError.typeMismatch ∧
    ArrayLen now s k = .error StoreError.typeMismatch ∧
    Get now s k = some e.value := by
  have hgv : Get now s k = some e.value := by simp [Get, hget, hlive]
  refine ⟨?_, ?_, ?_, ?_, ?_, ?_, ?_, ?_, hgv⟩ <;>
    (cases hv : e.value <;>
      simp_all [Push, Pop, Pull, PullAll, AddToSet, ArraySet, ArrayAll,
        ArrayLen, isSeq])

theorem collection_op_on_scalar_type_mismatch_witness :
    Push 0 [("k", ⟨Value.vstr "s", none⟩)] "k" [Value.vnum 1] =
      ([("k", ⟨Value.vstr "s", none⟩)], some StoreError.typeMismatch) :=
  (collection_op_on_scalar_type_mismatch 0 [("k", ⟨Value.vstr "s", none⟩)]
    "k" ⟨Value.vstr "s", none⟩ [Value.vnum 1] Value.vnull 0 1
    (by decide) (by decide) (by decide)).1

/-- C7: `AddToSet` appends only values not already present (by structural
equality), preserves the existing order as a prefix, keeps the sequence
duplicate-free (also deduplicating among the given values), and in
particular `AddToSet(k, "a")` then `AddToSet(k, "a", "b")` leaves
`ArrayAll(k) = ["a", "b"]`. -/
theorem addtoset_dedup (now : Nat) (xs vs : List Value) (hnd : xs.Nodup) :
    (∃ t, addUnique xs vs = xs ++ t) ∧
    (∀ v, v ∈ addUnique xs vs ↔ v ∈ xs ∨ v ∈ vs) ∧
    (addUnique xs vs).Nodup ∧
    ArrayAll 0 (AddToSet 0 (AddToSet 0 [] "k" [Value.vstr "a"]).1 "k"
        [Value.vstr "a", Value.vstr "b"]).1 "k" =
      .ok (some [Value.vstr "a", Value.vstr "b"]) := by
  refine ⟨addUnique_append xs vs, fun v => mem_addUnique xs vs v,
    addUnique_nodup xs vs hnd, ?_⟩
  rfl

theorem addtoset_dedup_witness :
    (addUnique [Value.vstr "a"] [Value.vstr "a", Value.vstr "b"]).Nodup ∧
    Value.vstr "b" ∈ addUnique [Value.vstr "a"]
      [Value.vstr "a", Value.vstr "b"] := by
  have h := addtoset_dedup 0 [Value.vstr "a"]
    [Value.vstr "a", Value.vstr "b"] (by decide)
  exact ⟨h.2.2.1, (h.2.1 (Value.vstr "b")).2 (Or.inr (by decide))⟩

/-- C8: for an absent key, `Push(k, vs)` succeeds, creating the sequence,
and a subsequent `ArrayAll(k)` returns exactly `vs` in the pushed order
(with `ArrayLen` matching). -/
theorem push_arrayall_round_trip (now : Nat) (s : StoreState) (k : String)
    (vs : List Value) (habsent : rawGet s k = none) :
    (Push now s k vs).2 = none ∧
    ArrayAll now (Push now s k vs).1 k = .ok (some vs) ∧
    ArrayLen now (Push now s k vs).1 k = .ok (some vs.length) := by
  have hp : Push now s k vs = (Set now s k (Value.vseq vs) none, none) := by
    simp [Push, habsent]
  rw [hp]
  have hg := Get_Set_self_forever now now s k (Value.vseq vs)
  exact ⟨rfl, by simp [ArrayAll, hg], by simp [ArrayLen, hg]⟩

theorem push_arrayall_round_trip_witness :
    ArrayAll 0 (Push 0 [] "k"
        [Value.vnum 1, Value.vnum 2, Value.vnum 3]).1 "k" =
      .ok (some [Value.vnum 1, Value.vnum 2, Value.vnum 3]) :=
  (push_arrayall_round_trip 0 [] "k"
    [Value.vnum 1, Value.vnum 2, Value.vnum 3] (by decide)).2.1

/-- C9: `Pop(k, position)` removes and returns exactly one element from one
end of the sequence under a single consistent position-to-end mapping (the
`store.d.ts` convention: `1` = end, `-1` = beginning): on every state whose
key holds a nonempty sequence, position `1` pops the last element, position
`-1` pops the first, every other position behaves like `1`, and the
remaining sequence is one element shorter. -/
theorem pop_position_convention (now : Nat) (s : StoreState) (k : String)
    (e : Entry) (xs : List Value) (pos : Int) (hget : rawGet s k = some e)
    (hlive : isExpired now e = false) (hval : e.value = Value.vseq xs)
    (hne : xs ≠ []) :
    (Pop now s k 1).1 = xs.getLast? ∧
    (Pop now s k 1).2.1 = rawSet s k ⟨Value.vseq xs.dropLast, e.expiresAt⟩ ∧
    (Pop now s k (-1)).1 = xs.head? ∧
    (Pop now s k (-1)).2.1 = rawSet s k ⟨Value.vseq xs.tail, e.expiresAt⟩ ∧
    (pos ≠ -1 → Pop now s k pos = Pop now s k 1) ∧
    ArrayLen now (Pop now s k 1).2.1 k = .ok (some (xs.length - 1)) ∧
    ArrayLen now (Pop now s k (-1)).2.1 k = .ok (some (xs.length - 1)) ∧
    (Pop now s k 1).2.2 = none ∧ (Pop now s k (-1)).2.2 = none := by
  have hemp : xs.isEmpty = false := by
    cases xs with
    | nil => exact absurd rfl hne
    | cons a l => rfl
  have hp1 : Pop now s k 1 =
      (xs.getLast?, rawSet s k ⟨Value.vseq xs.dropLast, e.expiresAt⟩, none) := by
    simp [Pop, hget, hlive, hval, hemp]
  have hpm : Pop now s k (-1) =
      (xs.head?, rawSet s k ⟨Value.vseq xs.tail, e.expiresAt⟩, none) := by
    simp [Pop, hget, hlive, hval, hemp]
  have hgen : pos ≠ -1 → Pop now s k pos = Pop now s k 1 := by
    intro hp
    rw [hp1]
    simp [Pop, hget, hlive, hval, hemp, hp]
  have hlen1 : ArrayLen now (rawSet s k ⟨Value.vseq xs.dropLast, e.expiresAt⟩) k =
      .ok (some (xs.length - 1)) := by
    simp [ArrayLen, Get, rawGet_rawSet_self, isExpired_mk, hlive]
  have hlenm : ArrayLen now (rawSet s k ⟨Value.vseq xs.tail, e.expiresAt⟩) k =
      .ok (some (xs.length - 1)) := by
    simp [ArrayLen, Get, rawGet_rawSet_self, isExpired_mk, hlive]
  rw [hp1, hpm]
  exact ⟨rfl, rfl, rfl, rfl, by rw [hp1] at hgen; exact hgen, hlen1, hlenm,
    rfl, rfl⟩

theorem pop_position_convention_witness :
    (Pop 0 [("k", ⟨Value.vseq [Value.vnum 1, Value.vnum 2], none⟩)]
      "k" 1).1 = some (Value.vnum 2) ∧
    (Pop 0 [("k", ⟨Value.vseq [Value.vnum 1, Value.vnum 2], none⟩)]
      "k" (-1)).1 = some (Value.vnum 1) := by
  have h := pop_position_convention 0
    [("k", ⟨Value.vseq [Value.vnum 1, Value.vnum 2], none⟩)] "k"
    ⟨Value.vseq [Value.vnum 1, Value.vnum 2], none⟩
    [Value.vnum 1, Value.vnum 2] 5 (by decide) (by decide) (by decide)
    (by decide)
  exact ⟨by rw [h.1]; rfl, by rw [h.2.2.1]; rfl⟩

/-- C10: `GetSetMulti(keys, getValue, ttl)` returns a map with an entry for
every requested key, in order; a binding for a key that is present returns
exactly the stored value, a binding for an absent key is the loader result,
and every absent requested key ends up stored in the resulting state as the
loader result with the given TTL; `GetMulti`, in contrast, returns entries
exactly for the keys that are present. -/
theorem getsetmulti_contract (now : Nat) (s : StoreState)
    (keys : List String) (f : String → Value) (ttl : Option Nat) :
    ((GetSetMulti now s keys f ttl).1).map Prod.fst = keys ∧
    (∀ p ∈ (GetSetMulti now s keys f ttl).1, ∀ v,
        Get now s p.1 = some v → p.2 = v) ∧
    (∀ p ∈ (GetSetMulti now s keys f ttl).1,
        Get now s p.1 = none → p.2 = f p.1) ∧
    (∀ k ∈ keys, Get now s k = none →
        rawGet (GetSetMulti now s keys f ttl).2 k =
          some ⟨f k, ttl.map (fun t => now + t)⟩) ∧
    (GetMulti now s keys).map Prod.fst =
      keys.filter (fun k => (Get now s k).isSome) ∧
    (∀ p ∈ GetMulti now s keys, Get now s p.1 = some p.2) :=
  ⟨getSetMulti_fst now s keys f ttl, getSetMulti_hit now s keys f ttl,
   getSetMulti_miss now s keys f ttl, getSetMulti_stores now s keys f ttl,
   getMulti_fst now s keys, getMulti_mem now s keys⟩

theorem getsetmulti_contract_witness :
    ((GetSetMulti 0 [("a", ⟨Value.vnum 9, none⟩)] ["a", "b"]
        (fun x => Value.vnum 3) (some 5)).1).map Prod.fst = ["a", "b"] ∧
    (("a", Value.vnum 9) : String × Value).2 = Value.vnum 9 ∧
    rawGet (GetSetMulti 0 [("a", ⟨Value.vnum 9, none⟩)] ["a", "b"]
        (fun x => Value.vnum 3) (some 5)).2 "b" =
      some ⟨Value.vnum 3, some (0 + 5)⟩ := by
  have h := getsetmulti_contract 0 [("a", ⟨Value.vnum 9, none⟩)] ["a", "b"]
    (fun x => Value.vnum 3) (some 5)
  refine ⟨h.1, ?_, ?_⟩
  · exact h.2.1 ("a", Value.vnum 9) (by decide) (Value.vnum 9) (by decide)
  · exact h.2.2.2.1 "b" (by decide) (by decide)

end YaoStore
